import Mathlib

/-!
Shallow embedding of `sleeper_stats.py` (fantasy-football stats tool):
the Sleeper HTTP fetch loops, the matchup normalizer, the DuckDB table
construction with its window-ranked winner flag, the fixed query library,
and the ad-hoc query gate.  Machine floats of the source are modelled as
exact rationals; Python dicts are modelled as association lists in
insertion order.
-/

/-- Raw matchup entry for one roster in one week, as returned by the
Sleeper API: roster id, matchup-group id, optional total points, the list
of participating player ids and the per-player points mapping. -/
structure MatchupEntry where
  roster_id : Nat
  matchup_id : Nat
  points : Option ℚ
  players : List String
  players_points : List (String × ℚ)
deriving DecidableEq

/-- Outcome of one `requests.get` for a week's matchups: either a raised
transport-level exception, or a response with an HTTP status code and a
parsed JSON body. -/
inductive FetchOutcome where
  | exn (msg : String)
  | resp (status : Nat) (data : List MatchupEntry)
deriving DecidableEq

/-- Whether the outcome is a raised exception. -/
def isExn : FetchOutcome → Bool
  | .exn _ => true
  | .resp _ _ => false

/-- Loop body of `SleeperStats.fetch_matchups`: iterate the given weeks in
order; a raised exception breaks out of the loop, a response is recorded
under its week only when the status code is 200. -/
def fetchLoop (net : Nat → FetchOutcome) : List Nat → List (Nat × List MatchupEntry)
  | [] => []
  | w :: ws =>
    match net w with
    | .exn _ => []
    | .resp status data =>
      if status = 200 then (w, data) :: fetchLoop net ws else fetchLoop net ws

/-- `SleeperStats.fetch_matchups`: weeks 1 through 17, in order. -/
def fetch_matchups (net : Nat → FetchOutcome) : List (Nat × List MatchupEntry) :=
  fetchLoop net (List.range' 1 17)

/-- Loop body of `SleeperStats.fetch_playoff_matchups`: the source iterates
`week` over `range(1, 5)` and requests and records week `week + 17`;
exceptions break, non-200 statuses are skipped. -/
def fetchPlayoffLoop (net : Nat → FetchOutcome) : List Nat → List (Nat × List MatchupEntry)
  | [] => []
  | w :: ws =>
    match net (w + 17) with
    | .exn _ => []
    | .resp status data =>
      if status = 200 then (w + 17, data) :: fetchPlayoffLoop net ws
      else fetchPlayoffLoop net ws

/-- Python `dict` single-key write: replace the value in place when the key
is present, otherwise append the pair. -/
def dictSet {α β : Type} [DecidableEq α] (d : List (α × β)) (k : α) (v : β) :
    List (α × β) :=
  if d.any (fun p => p.1 = k) then
    d.map (fun p => if p.1 = k then (k, v) else p)
  else d ++ [(k, v)]

/-- Python `dict.update`: fold the new pairs into the dictionary. -/
def dictUpdate {α β : Type} [DecidableEq α] (d new : List (α × β)) : List (α × β) :=
  new.foldl (fun acc p => dictSet acc p.1 p.2) d

/-- `SleeperStats.fetch_playoff_matchups`: run the playoff loop and merge
the result into the already fetched week-keyed matchups via `dict.update`. -/
def fetch_playoff_matchups (net : Nat → FetchOutcome)
    (matchups : List (Nat × List MatchupEntry)) : List (Nat × List MatchupEntry) :=
  dictUpdate matchups (fetchPlayoffLoop net (List.range' 1 4))

/-- Successful-week selector used by the spec-side fetch contract: a week
is kept, paired with its body, exactly when its response came back with
HTTP status 200. -/
def keepWeek (net : Nat → FetchOutcome) (w : Nat) : Option (Nat × List MatchupEntry) :=
  match net w with
  | .exn _ => none
  | .resp status data => if status = 200 then some (w, data) else none

/-- Modelled from the spec's words for the fetch contract: walk the given
weeks in order, truncating at the first week whose request raises a
transport-level exception, and keep exactly the weeks whose response came
back with HTTP status 200. -/
def specFetchWeeks (net : Nat → FetchOutcome) (ws : List Nat) :
    List (Nat × List MatchupEntry) :=
  (ws.takeWhile (fun w => !isExn (net w))).filterMap (keepWeek net)

lemma fetchLoop_eq_spec (net : Nat → FetchOutcome) :
    ∀ ws : List Nat, fetchLoop net ws = specFetchWeeks net ws := by
  intro ws
  induction ws with
  | nil => rfl
  | cons w ws ih =>
    unfold fetchLoop specFetchWeeks
    cases hn : net w with
    | exn m => simp [List.takeWhile_cons, isExn, hn]
    | resp status data =>
      simp only [List.takeWhile_cons, isExn, hn, Bool.not_false, if_pos rfl]
      by_cases hs : status = 200
      · simp [hs, List.filterMap_cons, keepWeek, hn, specFetchWeeks] at ih ⊢
        exact ih
      · simp [hs, List.filterMap_cons, keepWeek, hn, specFetchWeeks] at ih ⊢
        exact ih

lemma fetchPlayoffLoop_eq_map (net : Nat → FetchOutcome) :
    ∀ ws : List Nat, fetchPlayoffLoop net ws = fetchLoop net (ws.map (fun w => w + 17)) := by
  intro ws
  induction ws with
  | nil => rfl
  | cons w ws ih =>
    unfold fetchPlayoffLoop fetchLoop
    simp only [List.map_cons]
    cases hn : net (w + 17) with
    | exn m => rfl
    | resp status data =>
      by_cases hs : status = 200 <;> simp [hs, ih, fetchLoop]

lemma takeWhile_range'_all (p : Nat → Bool) :
    ∀ (n s w : Nat), w ∈ (List.range' s n).takeWhile p →
      ∀ v, s ≤ v → v ≤ w → p v = true := by
  intro n
  induction n with
  | zero => intro s w hw; simp at hw
  | succ n ih =>
    intro s w hw v hsv hvw
    rw [List.range'_succ] at hw
    rw [List.takeWhile_cons] at hw
    by_cases hp : p s = true
    · rw [if_pos hp] at hw
      rcases List.mem_cons.mp hw with h | h
      · have hvs : v = s := by omega
        rw [hvs]; exact hp
      · rcases Nat.eq_or_lt_of_le hsv with h' | h'
        · rw [← h']; rw [h'] at hp ⊢; exact hp
        · exact ih (s + 1) w h v h' hvw
    · rw [if_neg hp] at hw
      simp at hw

lemma specFetch_absent_after_exn (net : Nat → FetchOutcome) (s n w w' : Nat)
    (hsw : s ≤ w) (hexn : isExn (net w) = true) (hww : w ≤ w') :
    ∀ d, (w', d) ∉ specFetchWeeks net (List.range' s n) := by
  intro d hmem
  unfold specFetchWeeks at hmem
  rcases List.mem_filterMap.mp hmem with ⟨u, hu, hfu⟩
  have huw : u = w' := by
    cases hNet : net u with
    | exn m => simp [keepWeek, hNet] at hfu
    | resp status data =>
      simp only [keepWeek, hNet] at hfu
      by_cases hs : status = 200
      · simp [hs] at hfu
        exact hfu.1
      · simp [hs] at hfu
  subst huw
  have := takeWhile_range'_all (fun v => !isExn (net v)) n s u hu w hsw hww
  simp [hexn] at this

/-- C2: `fetch_matchups` walks weeks 1..17 in order; it equals the
spec-side contract (truncate at the first transport-level exception, keep
exactly the 200-status weeks), and any week at or past an exception week
inside the 1..17 range is absent from the result. -/
theorem fetch_matchups_spec (net : Nat → FetchOutcome) :
    fetch_matchups net = specFetchWeeks net (List.range' 1 17) ∧
    (∀ w w', 1 ≤ w → isExn (net w) = true → w ≤ w' →
      ∀ d, (w', d) ∉ fetch_matchups net) := by
  constructor
  · exact fetchLoop_eq_spec net (List.range' 1 17)
  · intro w w' h1 hexn hww d
    rw [fetch_matchups, fetchLoop_eq_spec net]
    exact specFetch_absent_after_exn net 1 17 w w' h1 hexn hww d

/-- Network trace used to instantiate the fetch theorems: week 3 answers
with status 404, week 5 raises, every other week answers 200 with an empty
body. -/
def exNet : Nat → FetchOutcome := fun w =>
  if w = 5 then .exn "connection reset"
  else if w = 3 then .resp 404 []
  else .resp 200 []

theorem fetch_matchups_spec_witness :
    ((7 : Nat), ([] : List MatchupEntry)) ∉ fetch_matchups exNet :=
  (fetch_matchups_spec exNet).2 5 7 (by decide) (by decide) (by decide) []

lemma dictSet_append {α β : Type} [DecidableEq α] (d : List (α × β)) (k : α) (v : β)
    (hk : ∀ j ∈ d.map Prod.fst, j ≠ k) : dictSet d k v = d ++ [(k, v)] := by
  unfold dictSet
  rw [if_neg]
  simp only [List.any_eq_true, decide_eq_true_eq]
  rintro ⟨p, hp, hpk⟩
  exact hk p.1 (List.mem_map.mpr ⟨p, hp, rfl⟩) hpk

lemma dictUpdate_append {α β : Type} [DecidableEq α] :
    ∀ (new d : List (α × β)),
      (new.map Prod.fst).Nodup →
      (∀ k ∈ new.map Prod.fst, ∀ j ∈ d.map Prod.fst, j ≠ k) →
      dictUpdate d new = d ++ new := by
  intro new
  induction new with
  | nil => intro d _ _; simp [dictUpdate]
  | cons p rest ih =>
    intro d hnd hdisj
    unfold dictUpdate
    simp only [List.foldl_cons]
    have h1 : dictSet d p.1 p.2 = d ++ [(p.1, p.2)] := by
      apply dictSet_append
      intro j hj
      exact hdisj p.1 (by simp) j hj
    have hrest : dictUpdate (d ++ [(p.1, p.2)]) rest = (d ++ [(p.1, p.2)]) ++ rest := by
      apply ih
      · exact (List.nodup_cons.mp (by simpa using hnd)).2
      · intro k hkmem j hj
        rcases List.mem_map.mp hj with ⟨q, hq, hqj⟩
        rcases List.mem_append.mp hq with hq' | hq'
        · exact hdisj k (by simp [hkmem]) j (hqj ▸ List.mem_map.mpr ⟨q, hq', rfl⟩)
        · have hq1 : q.1 = p.1 := by
            have : q = (p.1, p.2) := by simpa using hq'
            rw [this]
          have hne : p.1 ∉ rest.map Prod.fst :=
            (List.nodup_cons.mp (by simpa using hnd)).1
          intro hjk
          have hpk : p.1 = k := (hq1.symm.trans hqj).trans hjk
          rw [hpk] at hne
          exact hne hkmem
    rw [show rest.foldl (fun acc q => dictSet acc q.1 q.2) (dictSet d p.1 p.2) =
        dictUpdate (dictSet d p.1 p.2) rest from rfl]
    rw [h1, hrest, List.append_assoc]
    simp

lemma filterMapFetch_keys_sublist (net : Nat → FetchOutcome) :
    ∀ l : List Nat, ((l.filterMap (keepWeek net)).map Prod.fst).Sublist l := by
  intro l
  induction l with
  | nil => simp
  | cons w ws ih =>
    rw [List.filterMap_cons]
    cases hn : net w with
    | exn m =>
      rw [show keepWeek net w = none from by simp [keepWeek, hn]]
      exact ih.cons w
    | resp status data =>
      by_cases hs : status = 200
      · rw [show keepWeek net w = some (w, data) from by simp [keepWeek, hn, hs]]
        rw [List.map_cons]
        exact ih.cons₂ w
      · rw [show keepWeek net w = none from by simp [keepWeek, hn, hs]]
        exact ih.cons w

lemma specFetch_keys_sublist (net : Nat → FetchOutcome) (ws : List Nat) :
    ((specFetchWeeks net ws).map Prod.fst).Sublist ws :=
  (filterMapFetch_keys_sublist net _).trans (List.takeWhile_sublist _)

/-- C8: `fetch_playoff_matchups` follows the same per-week pattern as the
regular-season fetch, over weeks 18..21: its loop equals the same
spec-side contract instantiated at weeks 18..21, the fetched playoff weeks
are merged into the existing week-keyed structure (appended, since
regular-season keys are below 18), and every week at or past a week whose
request raised an exception is absent from the playoff additions. -/
theorem fetch_playoff_matchups_spec (net : Nat → FetchOutcome)
    (ms : List (Nat × List MatchupEntry))
    (hk : ∀ k ∈ ms.map Prod.fst, k < 18) :
    fetch_playoff_matchups net ms = ms ++ specFetchWeeks net (List.range' 18 4) ∧
    fetchPlayoffLoop net (List.range' 1 4) = specFetchWeeks net (List.range' 18 4) ∧
    (∀ w w', 18 ≤ w → isExn (net w) = true → w ≤ w' →
      ∀ d, (w', d) ∉ specFetchWeeks net (List.range' 18 4)) := by
  have hmap : (List.range' 1 4).map (fun w => w + 17) = List.range' 18 4 := by decide
  have hloop : fetchPlayoffLoop net (List.range' 1 4) =
      specFetchWeeks net (List.range' 18 4) := by
    rw [fetchPlayoffLoop_eq_map, hmap, fetchLoop_eq_spec]
  refine ⟨?_, hloop, ?_⟩
  · unfold fetch_playoff_matchups
    rw [hloop]
    apply dictUpdate_append
    · exact (specFetch_keys_sublist net _).nodup (List.nodup_range' 18 4)
    · intro k hkmem j hj
      have hk18 : 18 ≤ k := by
        have := (specFetch_keys_sublist net (List.range' 18 4)).mem hkmem
        exact (List.mem_range'_1.mp this).1
      have := hk j hj
      omega
  · intro w w' h18 hexn hww d
    exact specFetch_absent_after_exn net 18 4 w w' h18 hexn hww d

/-- Network trace for the playoff fetch theorem: week 20 raises, all other
weeks answer 200 with an empty body. -/
def exNetP : Nat → FetchOutcome := fun w =>
  if w = 20 then .exn "timeout" else .resp 200 []

theorem fetch_playoff_matchups_spec_witness :
    fetch_playoff_matchups exNetP [(1, [])] =
      [(1, [])] ++ specFetchWeeks exNetP (List.range' 18 4) :=
  (fetch_playoff_matchups_spec exNetP [(1, [])] (by decide)).1

/-- Roster object as used by `build_database`: only its optional owning
user id is read. -/
structure RosterObj where
  owner_id : Option String
deriving DecidableEq

/-- User object as used by `build_database`: only its metadata mapping is
read, from which the optional team display name is taken. -/
structure UserObj where
  metadata : List (String × String)
deriving DecidableEq

/-- Python `dict.get(k, default)`: value of the first pair with the key,
else the default. -/
def dget {α β : Type} [DecidableEq α] (d : List (α × β)) (k : α) (v : β) : β :=
  match d.find? (fun p => p.1 = k) with
  | some p => p.2
  | none => v

/-- Optional association-list lookup (first pair with the key). -/
def dlookup {α β : Type} [DecidableEq α] (d : List (α × β)) (k : α) : Option β :=
  (d.find? (fun p => p.1 = k)).map (fun p => p.2)

lemma dget_eq_dlookup {α β : Type} [DecidableEq α] (d : List (α × β)) (k : α) (v : β) :
    dget d k v = (dlookup d k).getD v := by
  unfold dget dlookup
  cases d.find? (fun p => p.1 = k) <;> simp

/-- Team-name resolution of `build_database` (source lines 109-113):
`rosters.get(roster_id, {})`, then `.get('owner_id')`, then
`users.get(owner_id, {})`, then `.get('metadata', {}).get('team_name',
'Team_<roster_id>')`. -/
def resolveTeamName (rosters : List (Nat × RosterObj)) (users : List (String × UserObj))
    (roster_id : Nat) : String :=
  let roster := dget rosters roster_id ⟨none⟩
  let user : UserObj :=
    match roster.owner_id with
    | none => ⟨[]⟩
    | some oid => dget users oid ⟨[]⟩
  dget user.metadata "team_name" ("Team_" ++ toString roster_id)

/-- Modelled from the spec's words for team-name resolution: resolve
matchup → roster (by roster id) → user (by the roster's owner id) → team
name from user metadata; whenever any link is missing, fall back to the
synthetic name. -/
def resolveTeamNameSpec (rosters : List (Nat × RosterObj)) (users : List (String × UserObj))
    (roster_id : Nat) : String :=
  ((((dlookup rosters roster_id).bind (fun r => r.owner_id)).bind
      (fun oid => dlookup users oid)).bind
      (fun u => dlookup u.metadata "team_name")).getD
    ("Team_" ++ toString roster_id)

/-- C4: team-name resolution always produces a string, equal to the
spec-side optional chain with the synthetic `Team_<roster_id>` fallback;
in particular, whenever no metadata team name is reachable (missing
roster, missing owner, missing user or missing metadata name), the
synthetic name is produced. -/
theorem resolveTeamName_spec (rosters : List (Nat × RosterObj))
    (users : List (String × UserObj)) (roster_id : Nat) :
    resolveTeamName rosters users roster_id = resolveTeamNameSpec rosters users roster_id ∧
    ((((dlookup rosters roster_id).bind (fun r => r.owner_id)).bind
        (fun oid => dlookup users oid)).bind
        (fun u => dlookup u.metadata "team_name") = none →
      resolveTeamName rosters users roster_id = "Team_" ++ toString roster_id) := by
  have hmain : resolveTeamName rosters users roster_id =
      resolveTeamNameSpec rosters users roster_id := by
    unfold resolveTeamName resolveTeamNameSpec
    simp only [dget_eq_dlookup]
    cases h1 : dlookup rosters roster_id with
    | none => simp [h1, dget_eq_dlookup, dlookup]
    | some r =>
      cases h2 : r.owner_id with
      | none => simp [h1, h2, dget_eq_dlookup, dlookup]
      | some oid =>
        cases h3 : dlookup users oid with
        | none =>
          simp only [h1, h2, h3, dget_eq_dlookup, Option.getD_some, Option.some_bind,
            Option.none_bind, Option.getD_none]
          simp [dlookup]
        | some u => simp [h1, h2, h3, dget_eq_dlookup]
  constructor
  · exact hmain
  · intro hchain
    rw [hmain]
    unfold resolveTeamNameSpec
    rw [hchain]
    rfl

theorem resolveTeamName_spec_witness :
    resolveTeamName [(4, ⟨some "u9"⟩)] [] 4 = "Team_" ++ toString 4 :=
  (resolveTeamName_spec [(4, ⟨some "u9"⟩)] [] 4).2 (by decide)

/-- Player-score accumulation step of `build_database` (source lines
119-124): look the player's contribution up with default 0 and record it
only when it is strictly positive. -/
def scoreStep (pp : List (String × ℚ)) (acc : List (String × ℚ)) (player_id : String) :
    List (String × ℚ) :=
  let score := dget pp player_id 0
  if 0 < score then dictSet acc player_id score else acc

/-- Per-player score mapping built by `build_database` for one matchup
entry: iterate the entry's player list and keep the strictly positive
contributions. -/
def playerScores (m : MatchupEntry) : List (String × ℚ) :=
  m.players.foldl (scoreStep m.players_points) []

/-- Python `max(d, key=d.get)` over an association list: the first pair
attaining the maximal value, if any. -/
def pyMaxByVal (l : List (String × ℚ)) : Option (String × ℚ) :=
  match l with
  | [] => none
  | x :: xs => some (xs.foldl (fun best p => if best.2 < p.2 then p else best) x)

/-- Top-scorer identifier of `build_database` (source lines 127-132). -/
def topPlayerId (m : MatchupEntry) : Option String :=
  (pyMaxByVal (playerScores m)).map (fun p => p.1)

/-- Top-scorer score of `build_database` (source lines 127-132): 0 when no
player qualified. -/
def topPlayerScore (m : MatchupEntry) : ℚ :=
  match pyMaxByVal (playerScores m) with
  | some p => p.2
  | none => 0

lemma mem_dictSet {α β : Type} [DecidableEq α] (d : List (α × β)) (k : α) (v : β)
    (p : α × β) (hp : p ∈ dictSet d k v) : p ∈ d ∨ p = (k, v) := by
  unfold dictSet at hp
  by_cases hc : d.any (fun q => q.1 = k)
  · rw [if_pos hc] at hp
    rcases List.mem_map.mp hp with ⟨q, hq, hqp⟩
    by_cases hk : q.1 = k
    · right; rw [← hqp, if_pos hk]
    · left; rw [← hqp, if_neg hk]; exact hq
  · rw [if_neg hc] at hp
    rcases List.mem_append.mp hp with h | h
    · left; exact h
    · right; simpa using h

lemma scores_foldl_mem (pp : List (String × ℚ)) :
    ∀ (ps : List String) (acc : List (String × ℚ)) (p : String × ℚ),
      p ∈ ps.foldl (scoreStep pp) acc →
      p ∈ acc ∨ (p.1 ∈ ps ∧ 0 < p.2 ∧ p.2 = dget pp p.1 0) := by
  intro ps
  induction ps with
  | nil => intro acc p hp; left; exact hp
  | cons pid rest ih =>
    intro acc p hp
    rw [List.foldl_cons] at hp
    rcases ih (scoreStep pp acc pid) p hp with h | h
    · unfold scoreStep at h
      by_cases hpos : 0 < dget pp pid 0
      · rw [if_pos hpos] at h
        rcases mem_dictSet acc pid (dget pp pid 0) p h with h' | h'
        · left; exact h'
        · right
          refine ⟨by rw [h']; exact List.mem_cons_self pid rest, ?_, ?_⟩
          · rw [h']; exact hpos
          · rw [h']
      · rw [if_neg hpos] at h
        left; exact h
    · right
      exact ⟨List.mem_cons_of_mem pid h.1, h.2.1, h.2.2⟩

lemma scores_foldl_nil (pp : List (String × ℚ)) :
    ∀ (ps : List String), (∀ pid ∈ ps, dget pp pid 0 ≤ 0) →
      ∀ acc, ps.foldl (scoreStep pp) acc = acc := by
  intro ps
  induction ps with
  | nil => intro _ acc; rfl
  | cons pid rest ih =>
    intro hnp acc
    rw [List.foldl_cons]
    have h1 : scoreStep pp acc pid = acc := by
      unfold scoreStep
      rw [if_neg]
      simp only [not_lt]
      exact hnp pid (List.mem_cons_self pid rest)
    rw [h1]
    exact ih (fun q hq => hnp q (List.mem_cons_of_mem pid hq)) acc

lemma pyMax_foldl_mem :
    ∀ (xs : List (String × ℚ)) (x : String × ℚ),
      xs.foldl (fun best p => if best.2 < p.2 then p else best) x ∈ x :: xs := by
  intro xs
  induction xs with
  | nil => intro x; exact List.mem_singleton.mpr rfl
  | cons y ys ih =>
    intro x
    rw [List.foldl_cons]
    by_cases h : x.2 < y.2
    · rw [if_pos h]
      rcases List.mem_cons.mp (ih y) with h' | h'
      · rw [h']; simp
      · simp [h']
    · rw [if_neg h]
      rcases List.mem_cons.mp (ih x) with h' | h'
      · rw [h']; simp
      · simp [h']

lemma pyMax_foldl_le :
    ∀ (xs : List (String × ℚ)) (x : String × ℚ) (p : String × ℚ), p ∈ x :: xs →
      p.2 ≤ (xs.foldl (fun best q => if best.2 < q.2 then q else best) x).2 := by
  intro xs
  induction xs with
  | nil =>
    intro x p hp
    have hpx : p = x := by simpa using hp
    rw [hpx]
    exact le_refl x.2
  | cons y ys ih =>
    intro x p hp
    rw [List.foldl_cons]
    have hstart : x.2 ≤ (if x.2 < y.2 then y else x).2 := by
      by_cases h : x.2 < y.2
      · rw [if_pos h]; exact le_of_lt h
      · rw [if_neg h]
    have hy : y.2 ≤ (if x.2 < y.2 then y else x).2 := by
      by_cases h : x.2 < y.2
      · rw [if_pos h]
      · rw [if_neg h]; exact le_of_not_lt h
    rcases List.mem_cons.mp hp with h | h
    · calc p.2 = x.2 := by rw [h]
        _ ≤ (if x.2 < y.2 then y else x).2 := hstart
        _ ≤ _ := ih (if x.2 < y.2 then y else x) _ (List.mem_cons_self _ _)
    · rcases List.mem_cons.mp h with h' | h'
      · calc p.2 = y.2 := by rw [h']
          _ ≤ (if x.2 < y.2 then y else x).2 := hy
          _ ≤ _ := ih (if x.2 < y.2 then y else x) _ (List.mem_cons_self _ _)
      · exact ih (if x.2 < y.2 then y else x) p (List.mem_cons_of_mem _ h')

/-- C3: the per-player score mapping holds only players with strictly
positive contributions, drawn from the entry's player list with their
looked-up scores; every recorded score is at most the top score; when the
mapping is non-empty the top-scorer fields name an arg-max member of the
mapping; and when no listed player has a strictly positive contribution
the top-scorer id is absent and the top score is 0. -/
theorem player_scores_spec (m : MatchupEntry) :
    (∀ p ∈ playerScores m, 0 < p.2 ∧ p.1 ∈ m.players ∧ p.2 = dget m.players_points p.1 0) ∧
    (∀ p ∈ playerScores m, p.2 ≤ topPlayerScore m) ∧
    (playerScores m ≠ [] → ∃ pid, topPlayerId m = some pid ∧
      (pid, topPlayerScore m) ∈ playerScores m) ∧
    ((∀ pid ∈ m.players, dget m.players_points pid 0 ≤ 0) →
      topPlayerId m = none ∧ topPlayerScore m = 0) := by
  refine ⟨?_, ?_, ?_, ?_⟩
  · intro p hp
    rcases scores_foldl_mem m.players_points m.players [] p hp with h | h
    · simp at h
    · exact ⟨h.2.1, h.1, h.2.2⟩
  · intro p hp
    unfold topPlayerScore pyMaxByVal
    cases hs : playerScores m with
    | nil => rw [hs] at hp; simp at hp
    | cons x xs =>
      rw [hs] at hp
      exact pyMax_foldl_le xs x p hp
  · intro hne
    cases hs : playerScores m with
    | nil => exact absurd hs hne
    | cons x xs =>
      have hmem := pyMax_foldl_mem xs x
      refine ⟨(xs.foldl (fun best p => if best.2 < p.2 then p else best) x).1, ?_, ?_⟩
      · unfold topPlayerId
        rw [hs]
        simp [pyMaxByVal]
      · unfold topPlayerScore
        rw [hs]
        simp only [pyMaxByVal]
        simpa using hmem
  · intro hnp
    have hempty : playerScores m = [] := scores_foldl_nil m.players_points m.players hnp []
    unfold topPlayerId topPlayerScore
    rw [hempty]
    exact ⟨rfl, rfl⟩

/-- Matchup entry used to instantiate the player-score theorem: both
listed players have non-positive contributions. -/
def exEntry : MatchupEntry :=
  { roster_id := 1
    matchup_id := 1
    points := some 100
    players := ["p1", "p2"]
    players_points := [("p1", 0), ("p2", -2)] }

theorem player_scores_spec_witness :
    topPlayerId exEntry = none ∧ topPlayerScore exEntry = 0 :=
  (player_scores_spec exEntry).2.2.2 (by decide)

/-- Normalized record appended by `build_database` for one (week, matchup
entry): source lines 104-143.  The serialized `players_json` string is
kept as the underlying finite mapping. -/
structure MatchupRecord where
  week : Nat
  roster_id : Nat
  team_name : String
  matchup_id : Nat
  points : ℚ
  top_player_id : Option String
  top_player_score : ℚ
  players_json : List (String × ℚ)
deriving DecidableEq

/-- Normalization of one raw matchup entry (`build_database` loop body):
resolve the team name, default missing points to 0, and attach the
player-score breakdown and top scorer. -/
def normalizeEntry (rosters : List (Nat × RosterObj)) (users : List (String × UserObj))
    (week : Nat) (m : MatchupEntry) : MatchupRecord :=
  { week := week
    roster_id := m.roster_id
    team_name := resolveTeamName rosters users m.roster_id
    matchup_id := m.matchup_id
    points := m.points.getD 0
    top_player_id := topPlayerId m
    top_player_score := topPlayerScore m
    players_json := playerScores m }

/-- Record list built by the normalization loop of `build_database`, in
week-dictionary iteration order. -/
def buildRecords (rosters : List (Nat × RosterObj)) (users : List (String × UserObj))
    (matchups : List (Nat × List MatchupEntry)) : List MatchupRecord :=
  matchups.foldr (fun wk acc => wk.2.map (normalizeEntry rosters users wk.1) ++ acc) []

/-- C10: when a raw entry's total-points field is absent, normalization
substitutes 0 as the record's points value, so the points column is always
defined. -/
theorem normalize_missing_points (rosters : List (Nat × RosterObj))
    (users : List (String × UserObj)) (week : Nat) (m : MatchupEntry)
    (h : m.points = none) :
    (normalizeEntry rosters users week m).points = 0 := by
  unfold normalizeEntry
  rw [h]
  rfl

theorem normalize_missing_points_witness :
    (normalizeEntry [] [] 1
      { roster_id := 2
        matchup_id := 1
        points := none
        players := []
        players_points := [] }).points = 0 :=
  normalize_missing_points [] [] 1 _ rfl

/-- Row of the `matchups` table created by `build_database` (source lines
150-177): the normalized record columns plus the derived `won` flag and
window rank. -/
structure DbRow where
  week : Nat
  roster_id : Nat
  team_name : String
  matchup_id : Nat
  points : ℚ
  top_player_id : Option String
  top_player_score : ℚ
  players_json : List (String × ℚ)
  won : Nat
  rank_in_matchup : Nat
deriving DecidableEq

/-- Strict comes-before order realizing `ROW_NUMBER() OVER (... ORDER BY
points DESC)` on indexed records: strictly more points, or equal points
and an earlier position in the loaded dataframe (the engine's
deterministic within-run tie-break by arrival order). -/
def beats (a b : Nat × MatchupRecord) : Bool :=
  decide (b.2.points < a.2.points) ||
    (decide (a.2.points = b.2.points) && decide (a.1 < b.1))

/-- Partition test of the window function: same week and same
matchup-group. -/
def samePart (a b : Nat × MatchupRecord) : Bool :=
  decide (a.2.week = b.2.week) && decide (a.2.matchup_id = b.2.matchup_id)

/-- `ROW_NUMBER()` of one indexed record: one more than the number of
records of its partition that come before it. -/
def rowNumberOf (rs : List (Nat × MatchupRecord)) (p : Nat × MatchupRecord) : Nat :=
  1 + (rs.filter (fun q => samePart q p && beats q p)).length

/-- Row built from one indexed record by the winner-derivation query. -/
def toRow (rs : List (Nat × MatchupRecord)) (p : Nat × MatchupRecord) : DbRow :=
  { week := p.2.week
    roster_id := p.2.roster_id
    team_name := p.2.team_name
    matchup_id := p.2.matchup_id
    points := p.2.points
    top_player_id := p.2.top_player_id
    top_player_score := p.2.top_player_score
    players_json := p.2.players_json
    won := if rowNumberOf rs p = 1 then 1 else 0
    rank_in_matchup := rowNumberOf rs p }

/-- The `matchups` table: every loaded record with its window rank and
derived `won` flag. -/
def buildTable (records : List MatchupRecord) : List DbRow :=
  records.enum.map (toRow records.enum)

lemma beats_iff (a b : Nat × MatchupRecord) :
    beats a b = true ↔
      (b.2.points < a.2.points ∨ (a.2.points = b.2.points ∧ a.1 < b.1)) := by
  simp [beats]

lemma beats_irrefl (a : Nat × MatchupRecord) : beats a a = false := by
  simp [beats]

lemma beats_trans {a b c : Nat × MatchupRecord}
    (hab : beats a b = true) (hbc : beats b c = true) : beats a c = true := by
  rw [beats_iff] at hab hbc ⊢
  rcases hab with h1 | ⟨h1, h1i⟩
  · rcases hbc with h2 | ⟨h2, h2i⟩
    · left; exact lt_trans h2 h1
    · left; rw [← h2]; exact h1
  · rcases hbc with h2 | ⟨h2, h2i⟩
    · left; rw [h1]; exact h2
    · right; exact ⟨h1.trans h2, lt_trans h1i h2i⟩

lemma beats_total {a b : Nat × MatchupRecord} (h : a.1 ≠ b.1) :
    beats a b = true ∨ beats b a = true := by
  rcases lt_trichotomy a.2.points b.2.points with hp | hp | hp
  · right; rw [beats_iff]; left; exact hp
  · rcases Nat.lt_or_ge a.1 b.1 with hi | hi
    · left; rw [beats_iff]; right; exact ⟨hp, hi⟩
    · right; rw [beats_iff]; right
      exact ⟨hp.symm, lt_of_le_of_ne hi (fun hh => h hh.symm)⟩
  · left; rw [beats_iff]; left; exact hp

/-- Fold computing the first-ranked element of a partition. -/
def bestOf (x : Nat × MatchupRecord) (l : List (Nat × MatchupRecord)) :
    Nat × MatchupRecord :=
  l.foldl (fun b q => if beats q b then q else b) x

lemma bestOf_mem : ∀ (l : List (Nat × MatchupRecord)) (x : Nat × MatchupRecord),
    bestOf x l ∈ x :: l := by
  intro l
  induction l with
  | nil => intro x; exact List.mem_singleton.mpr rfl
  | cons y ys ih =>
    intro x
    unfold bestOf at ih ⊢
    rw [List.foldl_cons]
    by_cases h : beats y x
    · rw [if_pos h]
      rcases List.mem_cons.mp (ih y) with h' | h'
      · rw [h']; simp
      · simp [h']
    · rw [if_neg h]
      rcases List.mem_cons.mp (ih x) with h' | h'
      · rw [h']; simp
      · simp [h']

lemma bestOf_unbeaten :
    ∀ (l : List (Nat × MatchupRecord)) (x : Nat × MatchupRecord),
      (x :: l).Pairwise (fun a b => a.1 ≠ b.1) →
      ∀ q ∈ x :: l, beats q (bestOf x l) = false := by
  intro l
  induction l with
  | nil =>
    intro x _ q hq
    have hqx : q = x := by simpa using hq
    rw [hqx]
    exact beats_irrefl x
  | cons y ys ih =>
    intro x hpw q hq
    have hxy : x.1 ≠ y.1 := by
      rcases List.pairwise_cons.mp hpw with ⟨hx, _⟩
      exact hx y (List.mem_cons_self y ys)
    by_cases h : beats y x = true
    · have hbest : bestOf x (y :: ys) = bestOf y ys := by
        unfold bestOf
        rw [List.foldl_cons, if_pos h]
      have hIH := ih y (List.pairwise_cons.mp hpw).2
      rw [hbest]
      rcases List.mem_cons.mp hq with hqx | hq'
      · rw [hqx]
        cases hb : beats x (bestOf y ys) with
        | false => rfl
        | true =>
          exfalso
          have hybest : beats y (bestOf y ys) = true := beats_trans h hb
          have hy0 : beats y (bestOf y ys) = false := hIH y (List.mem_cons_self y ys)
          rw [hy0] at hybest
          exact Bool.false_ne_true hybest
      · exact hIH q hq'
    · have hbest : bestOf x (y :: ys) = bestOf x ys := by
        unfold bestOf
        rw [List.foldl_cons, if_neg h]
      have hpw' : (x :: ys).Pairwise (fun a b => a.1 ≠ b.1) := by
        rcases List.pairwise_cons.mp hpw with ⟨hx, hrest⟩
        rcases List.pairwise_cons.mp hrest with ⟨_, hys⟩
        exact List.pairwise_cons.mpr ⟨fun b hb => hx b (List.mem_cons_of_mem y hb), hys⟩
      have hIH := ih x hpw'
      rw [hbest]
      rcases List.mem_cons.mp hq with hqx | hq'
      · rw [hqx]
        exact hIH x (List.mem_cons_self x ys)
      · rcases List.mem_cons.mp hq' with hqy | hq''
        · rw [hqy]
          cases hb : beats y (bestOf x ys) with
          | false => rfl
          | true =>
            exfalso
            have hxy' : beats x y = true := (beats_total hxy).resolve_right h
            have hxbest : beats x (bestOf x ys) = true := beats_trans hxy' hb
            have hx0 : beats x (bestOf x ys) = false := hIH x (List.mem_cons_self x ys)
            rw [hx0] at hxbest
            exact Bool.false_ne_true hxbest
        · exact hIH q (List.mem_cons_of_mem _ hq'')

lemma toRow_week (rs : List (Nat × MatchupRecord)) (p : Nat × MatchupRecord) :
    (toRow rs p).week = p.2.week := rfl

lemma toRow_matchup (rs : List (Nat × MatchupRecord)) (p : Nat × MatchupRecord) :
    (toRow rs p).matchup_id = p.2.matchup_id := rfl

lemma toRow_points (rs : List (Nat × MatchupRecord)) (p : Nat × MatchupRecord) :
    (toRow rs p).points = p.2.points := rfl

lemma toRow_won (rs : List (Nat × MatchupRecord)) (p : Nat × MatchupRecord) :
    (toRow rs p).won = if rowNumberOf rs p = 1 then 1 else 0 := rfl

lemma toRow_rank (rs : List (Nat × MatchupRecord)) (p : Nat × MatchupRecord) :
    (toRow rs p).rank_in_matchup = rowNumberOf rs p := rfl

lemma unbeaten_unique (P : List (Nat × MatchupRecord))
    (hfst : (P.map Prod.fst).Nodup) {p q : Nat × MatchupRecord}
    (hp : p ∈ P) (hq : q ∈ P)
    (hup : ∀ r ∈ P, beats r p = false) (huq : ∀ r ∈ P, beats r q = false) :
    p = q := by
  by_contra hne
  have hfne : p.1 ≠ q.1 := fun hf =>
    hne (List.inj_on_of_nodup_map hfst hp hq hf)
  rcases beats_total hfne with ht | ht
  · have hz := huq p hp
    rw [hz] at ht
    exact Bool.false_ne_true ht
  · have hz := hup q hq
    rw [hz] at ht
    exact Bool.false_ne_true ht

lemma nodup_all_eq_singleton {γ : Type} (l : List γ) (a : γ) (hnd : l.Nodup)
    (hmem : a ∈ l) (hall : ∀ x ∈ l, x = a) : l = [a] := by
  cases l with
  | nil => simp at hmem
  | cons x t =>
    have hx : x = a := hall x (List.mem_cons_self x t)
    cases t with
    | nil => rw [hx]
    | cons y t' =>
      exfalso
      have hy : y = a := hall y (List.mem_cons_of_mem x (List.mem_cons_self y t'))
      rcases List.nodup_cons.mp hnd with ⟨hxnot, _⟩
      apply hxnot
      rw [hx, ← hy]
      exact List.mem_cons_self y t'

lemma unbeaten_filter_length (x : Nat × MatchupRecord) (l : List (Nat × MatchupRecord))
    (hfst : ((x :: l).map Prod.fst).Nodup) :
    ((x :: l).filter (fun p => (x :: l).all (fun q => !beats q p))).length = 1 := by
  have hpw : (x :: l).Pairwise (fun a b => a.1 ≠ b.1) := by
    rw [List.Nodup, List.pairwise_map] at hfst
    exact hfst
  have hbmem : bestOf x l ∈ x :: l := bestOf_mem l x
  have hbunb : ∀ q ∈ x :: l, beats q (bestOf x l) = false := bestOf_unbeaten l x hpw
  have hnd : (x :: l).Nodup :=
    hpw.imp (fun hab hEq => hab (by rw [hEq]))
  have hfilter_nd : ((x :: l).filter (fun p => (x :: l).all (fun q => !beats q p))).Nodup :=
    hnd.filter _
  have hbest_in : bestOf x l ∈ (x :: l).filter (fun p => (x :: l).all (fun q => !beats q p)) := by
    rw [List.mem_filter]
    refine ⟨hbmem, ?_⟩
    rw [List.all_eq_true]
    intro q hq
    rw [hbunb q hq]
    rfl
  have hall_eq : ∀ u ∈ (x :: l).filter (fun p => (x :: l).all (fun q => !beats q p)),
      u = bestOf x l := by
    intro u hu
    rw [List.mem_filter] at hu
    have hunb : ∀ r ∈ x :: l, beats r u = false := by
      intro r hr
      have hh := (List.all_eq_true.mp hu.2) r hr
      simpa using hh
    exact unbeaten_unique (x :: l) hfst hu.1 hbmem hunb hbunb
  rw [nodup_all_eq_singleton _ _ hfilter_nd hbest_in hall_eq]
  rfl

lemma rowNumber_eq_one_iff (rs : List (Nat × MatchupRecord)) (p : Nat × MatchupRecord) :
    rowNumberOf rs p = 1 ↔ ∀ q ∈ rs, samePart q p = true → beats q p = false := by
  unfold rowNumberOf
  constructor
  · intro h q hq hsp
    have hlen : (rs.filter (fun q => samePart q p && beats q p)).length = 0 := by omega
    have hnil := List.length_eq_zero.mp hlen
    rw [List.filter_eq_nil] at hnil
    cases hb : beats q p with
    | false => rfl
    | true =>
      exfalso
      exact hnil q hq (by rw [hsp, hb]; rfl)
  · intro h
    have hnil : rs.filter (fun q => samePart q p && beats q p) = [] := by
      rw [List.filter_eq_nil]
      intro q hq hcon
      rw [Bool.and_eq_true] at hcon
      rcases hcon with ⟨h1, h2⟩
      rw [h q hq h1] at h2
      exact Bool.false_ne_true h2
    rw [hnil]
    rfl

/-- Partition membership test for the (week, matchup_id) group. -/
def partB (w mid : Nat) (q : Nat × MatchupRecord) : Bool :=
  decide (q.2.week = w) && decide (q.2.matchup_id = mid)

lemma rank_one_iff_unbeatenP (rs : List (Nat × MatchupRecord)) (w mid : Nat)
    (p : Nat × MatchupRecord) (hpw : p.2.week = w) (hpm : p.2.matchup_id = mid) :
    rowNumberOf rs p = 1 ↔
      (rs.filter (partB w mid)).all (fun q => !beats q p) = true := by
  rw [rowNumber_eq_one_iff, List.all_eq_true]
  constructor
  · intro h q hq
    rw [List.mem_filter] at hq
    have hq2 := hq.2
    unfold partB at hq2
    rw [Bool.and_eq_true] at hq2
    rcases hq2 with ⟨h1, h2⟩
    have hsp : samePart q p = true := by
      unfold samePart
      rw [Bool.and_eq_true]
      constructor
      · simp only [decide_eq_true_eq] at h1 ⊢
        rw [h1, hpw]
      · simp only [decide_eq_true_eq] at h2 ⊢
        rw [h2, hpm]
    rw [h q hq.1 hsp]
    rfl
  · intro h q hq hsp
    unfold samePart at hsp
    rw [Bool.and_eq_true] at hsp
    rcases hsp with ⟨h1, h2⟩
    have hq' : q ∈ rs.filter (partB w mid) := by
      rw [List.mem_filter]
      refine ⟨hq, ?_⟩
      unfold partB
      rw [Bool.and_eq_true]
      constructor
      · simp only [decide_eq_true_eq] at h1 ⊢
        rw [h1, hpw]
      · simp only [decide_eq_true_eq] at h2 ⊢
        rw [h2, hpm]
    have hh := h q hq'
    simpa using hh

lemma bool_eq_of_iff {a b : Bool} (h : a = true ↔ b = true) : a = b := by
  cases a with
  | false =>
    cases b with
    | false => rfl
    | true => exact absurd (h.mpr rfl) (by simp)
  | true =>
    cases b with
    | false => exact absurd (h.mp rfl) (by simp)
    | true => rfl

lemma partB_iff (w mid : Nat) (q : Nat × MatchupRecord) :
    partB w mid q = true ↔ (q.2.week = w ∧ q.2.matchup_id = mid) := by
  simp [partB]

/-- C1: in the built `matchups` table, for every (week, matchup_id)
partition that is present (non-empty), exactly one row of the partition
has `won = 1`; a row has `won = 1` exactly when its `rank_in_matchup`
equals 1, the rank assigned by ordering the partition by points
descending; and a winning row's points are maximal within its
partition. -/
theorem build_table_winner (records : List MatchupRecord) (w mid : Nat)
    (hne : ∃ r ∈ buildTable records, r.week = w ∧ r.matchup_id = mid) :
    ((buildTable records).filter
        (fun r => decide (r.week = w) && decide (r.matchup_id = mid) &&
          decide (r.won = 1))).length = 1 ∧
    (∀ r ∈ buildTable records, (r.won = 1 ↔ r.rank_in_matchup = 1)) ∧
    (∀ r ∈ buildTable records, r.week = w → r.matchup_id = mid → r.won = 1 →
      ∀ s ∈ buildTable records, s.week = w → s.matchup_id = mid →
        s.points ≤ r.points) := by
  refine ⟨?_, ?_, ?_⟩
  · unfold buildTable
    rw [List.filter_map, List.length_map]
    have hcongr : records.enum.filter
        ((fun r => decide (r.week = w) && decide (r.matchup_id = mid) &&
          decide (r.won = 1)) ∘ toRow records.enum) =
        records.enum.filter (fun p =>
          ((records.enum.filter (partB w mid)).all (fun q => !beats q p)) &&
            partB w mid p) := by
      apply List.filter_congr
      intro p hp
      apply bool_eq_of_iff
      simp only [Function.comp_apply, toRow_week, toRow_matchup, toRow_won,
        Bool.and_eq_true, decide_eq_true_eq, partB_iff]
      constructor
      · rintro ⟨⟨h1, h2⟩, h3⟩
        have hk : rowNumberOf records.enum p = 1 := by
          by_cases hkk : rowNumberOf records.enum p = 1
          · exact hkk
          · rw [if_neg hkk] at h3
            exact absurd h3 (by decide)
        exact ⟨(rank_one_iff_unbeatenP records.enum w mid p h1 h2).mp hk, h1, h2⟩
      · rintro ⟨hall, h1, h2⟩
        refine ⟨⟨h1, h2⟩, ?_⟩
        have hk := (rank_one_iff_unbeatenP records.enum w mid p h1 h2).mpr hall
        rw [if_pos hk]
    rw [hcongr]
    have hcongr2 : records.enum.filter (fun p =>
        ((records.enum.filter (partB w mid)).all (fun q => !beats q p)) &&
          partB w mid p) =
        (records.enum.filter (partB w mid)).filter (fun p =>
          (records.enum.filter (partB w mid)).all (fun q => !beats q p)) :=
      (List.filter_filter _ _).symm
    rw [hcongr2]
    have hPne : records.enum.filter (partB w mid) ≠ [] := by
      rcases hne with ⟨r, hr, hrw, hrm⟩
      unfold buildTable at hr
      rcases List.mem_map.mp hr with ⟨p, hp, hpr⟩
      apply List.ne_nil_of_mem (a := p)
      rw [List.mem_filter]
      refine ⟨hp, ?_⟩
      rw [partB_iff]
      rw [← hpr, toRow_week] at hrw
      rw [← hpr, toRow_matchup] at hrm
      exact ⟨hrw, hrm⟩
    have hfst : ((records.enum.filter (partB w mid)).map Prod.fst).Nodup := by
      apply List.Sublist.nodup (List.Sublist.map Prod.fst (List.filter_sublist _))
      exact List.nodup_enum_map_fst records
    obtain ⟨x, l, hxl⟩ := List.exists_cons_of_ne_nil hPne
    rw [hxl] at hfst ⊢
    exact unbeaten_filter_length x l hfst
  · intro r hr
    unfold buildTable at hr
    rcases List.mem_map.mp hr with ⟨p, hp, hpr⟩
    rw [← hpr, toRow_won, toRow_rank]
    by_cases hk : rowNumberOf records.enum p = 1
    · rw [if_pos hk]
      simp [hk]
    · rw [if_neg hk]
      simp [hk]
  · intro r hr hrw hrm hrwon s hs hsw hsm
    unfold buildTable at hr hs
    rcases List.mem_map.mp hr with ⟨p, hp, hpr⟩
    rcases List.mem_map.mp hs with ⟨q, hq, hqs⟩
    rw [← hpr, toRow_week] at hrw
    rw [← hpr, toRow_matchup] at hrm
    rw [← hpr, toRow_won] at hrwon
    rw [← hqs, toRow_week] at hsw
    rw [← hqs, toRow_matchup] at hsm
    rw [← hpr, toRow_points]
    rw [← hqs, toRow_points]
    have hrank : rowNumberOf records.enum p = 1 := by
      by_cases hk : rowNumberOf records.enum p = 1
      · exact hk
      · rw [if_neg hk] at hrwon
        exact absurd hrwon (by decide)
    have hsp : samePart q p = true := by
      unfold samePart
      rw [Bool.and_eq_true]
      constructor
      · simp only [decide_eq_true_eq]
        rw [hsw, hrw]
      · simp only [decide_eq_true_eq]
        rw [hsm, hrm]
    have hunb := (rowNumber_eq_one_iff records.enum p).mp hrank q hq hsp
    by_contra hlt
    have hql : p.2.points < q.2.points := lt_of_not_le hlt
    have hb : beats q p = true := by
      rw [beats_iff]
      left
      exact hql
    rw [hunb] at hb
    exact Bool.false_ne_true hb

/-- Two-team, one-week dataset used to instantiate the winner-derivation
theorem. -/
def exRecords : List MatchupRecord :=
  [ { week := 1, roster_id := 1, team_name := "Team A", matchup_id := 1,
      points := 241/2, top_player_id := none, top_player_score := 0,
      players_json := [] },
    { week := 1, roster_id := 2, team_name := "Team B", matchup_id := 1,
      points := 99, top_player_id := none, top_player_score := 0,
      players_json := [] } ]

theorem build_table_winner_witness :
    ((buildTable exRecords).filter
        (fun r => decide (r.week = 1) && decide (r.matchup_id = 1) &&
          decide (r.won = 1))).length = 1 :=
  (build_table_winner exRecords 1 1 (by decide)).1

/-- Result row of the top-10 / bottom-10 score queries: team, week,
points, window row number. -/
structure ScoreRow where
  team_name : String
  week : Nat
  points : ℚ
  rank : Nat
deriving DecidableEq

/-- `ORDER BY points DESC` realized as a deterministic sort. -/
def sortPointsDesc (t : List DbRow) : List DbRow :=
  List.insertionSort (fun a b => b.points ≤ a.points) t

/-- `ORDER BY points ASC` realized as a deterministic sort. -/
def sortPointsAsc (t : List DbRow) : List DbRow :=
  List.insertionSort (fun a b => a.points ≤ b.points) t

/-- `stat_2_top_10_scores_overall` (source lines 210-225): all rows
ordered by points descending, numbered by `ROW_NUMBER() OVER (ORDER BY
points DESC)`, limited to 10. -/
def stat_2_top_10_scores_overall (t : List DbRow) : List ScoreRow :=
  ((sortPointsDesc t).take 10).enum.map
    (fun p => { team_name := p.2.team_name, week := p.2.week,
                points := p.2.points, rank := p.1 + 1 })

/-- `stat_3b_top_10_lowest_scores_overall` (source lines 251-266): all
rows ordered by points ascending, numbered, limited to 10. -/
def stat_3b_top_10_lowest_scores_overall (t : List DbRow) : List ScoreRow :=
  ((sortPointsAsc t).take 10).enum.map
    (fun p => { team_name := p.2.team_name, week := p.2.week,
                points := p.2.points, rank := p.1 + 1 })

instance : IsTotal DbRow (fun a b => b.points ≤ a.points) :=
  ⟨fun a b => le_total b.points a.points⟩

instance : IsTrans DbRow (fun a b => b.points ≤ a.points) :=
  ⟨fun _ _ _ hab hbc => le_trans hbc hab⟩

instance : IsTotal DbRow (fun a b => a.points ≤ b.points) :=
  ⟨fun a b => le_total a.points b.points⟩

instance : IsTrans DbRow (fun a b => a.points ≤ b.points) :=
  ⟨fun _ _ _ hab hbc => le_trans hab hbc⟩

lemma enum_map_pairwise {α β : Type} (l : List α) (R : α → α → Prop)
    (f : Nat × α → β) (S : β → β → Prop)
    (hl : List.Pairwise R l)
    (hf : ∀ p q : Nat × α, R p.2 q.2 → S (f p) (f q)) :
    List.Pairwise S (l.enum.map f) := by
  rw [List.pairwise_map]
  have h2 : List.Pairwise (fun p q : Nat × α => R p.2 q.2) l.enum := by
    have h3 := hl
    rw [← List.enum_map_snd l] at h3
    exact List.pairwise_map.mp h3
  exact h2.imp (fun h => hf _ _ h)

/-- C5: the top-10-overall query returns `min 10 n` rows in monotonically
non-increasing points order, and the bottom-10-overall query returns
`min 10 n` rows in monotonically non-decreasing points order. -/
theorem top_bottom_ten_spec (t : List DbRow) :
    (stat_2_top_10_scores_overall t).length = min 10 t.length ∧
    List.Pairwise (fun a b : ScoreRow => b.points ≤ a.points)
      (stat_2_top_10_scores_overall t) ∧
    (stat_3b_top_10_lowest_scores_overall t).length = min 10 t.length ∧
    List.Pairwise (fun a b : ScoreRow => a.points ≤ b.points)
      (stat_3b_top_10_lowest_scores_overall t) := by
  refine ⟨?_, ?_, ?_, ?_⟩
  · unfold stat_2_top_10_scores_overall sortPointsDesc
    rw [List.length_map, List.enum_length, List.length_take,
      List.length_insertionSort]
  · unfold stat_2_top_10_scores_overall
    have hsorted : List.Sorted (fun a b : DbRow => b.points ≤ a.points) (sortPointsDesc t) :=
      List.sorted_insertionSort _ t
    have htake : List.Pairwise (fun a b : DbRow => b.points ≤ a.points)
        ((sortPointsDesc t).take 10) :=
      List.Pairwise.sublist (List.take_sublist 10 _) hsorted
    exact enum_map_pairwise _ _ _ _ htake (fun p q h => h)
  · unfold stat_3b_top_10_lowest_scores_overall sortPointsAsc
    rw [List.length_map, List.enum_length, List.length_take,
      List.length_insertionSort]
  · unfold stat_3b_top_10_lowest_scores_overall
    have hsorted : List.Sorted (fun a b : DbRow => a.points ≤ b.points) (sortPointsAsc t) :=
      List.sorted_insertionSort _ t
    have htake : List.Pairwise (fun a b : DbRow => a.points ≤ b.points)
        ((sortPointsAsc t).take 10) :=
      List.Pairwise.sublist (List.take_sublist 10 _) hsorted
    exact enum_map_pairwise _ _ _ _ htake (fun p q h => h)

/-- Result row of the win/loss aggregate queries: team, COUNT, AVG, MIN,
MAX. -/
structure AggRow where
  team_name : String
  games : Nat
  avg_points : ℚ
  min_points : ℚ
  max_points : ℚ
deriving DecidableEq

/-- SQL aggregate functions over one GROUP BY group: COUNT(*),
AVG(points), MIN(points), MAX(points). -/
def aggOf (team : String) (ps : List ℚ) : AggRow :=
  match ps with
  | [] =>
    { team_name := team, games := 0, avg_points := 0, min_points := 0, max_points := 0 }
  | h :: tl =>
    { team_name := team
      games := (h :: tl).length
      avg_points := (h :: tl).sum / ((h :: tl).length : ℚ)
      min_points := tl.foldl min h
      max_points := tl.foldl max h }

/-- Points of one team's rows within an already filtered row set. -/
def teamPoints (rows : List DbRow) (team : String) : List ℚ :=
  (rows.filter (fun r => r.team_name = team)).map (fun r => r.points)

instance : IsTotal AggRow (fun a b => b.avg_points ≤ a.avg_points) :=
  ⟨fun a b => le_total b.avg_points a.avg_points⟩

instance : IsTrans AggRow (fun a b => b.avg_points ≤ a.avg_points) :=
  ⟨fun _ _ _ hab hbc => le_trans hbc hab⟩

/-- `stat_6_avg_points_in_win` (source lines 338-355): keep the `won = 1`
rows, group by team, aggregate, order by average descending. -/
def stat_6_avg_points_in_win (t : List DbRow) : List AggRow :=
  List.insertionSort (fun a b => b.avg_points ≤ a.avg_points)
    ((((t.filter (fun r => r.won = 1)).map (fun r => r.team_name)).dedup).map
      (fun team => aggOf team (teamPoints (t.filter (fun r => r.won = 1)) team)))

/-- `stat_7_avg_points_in_loss` (source lines 357-374): keep the `won = 0`
rows, group by team, aggregate, order by average descending. -/
def stat_7_avg_points_in_loss (t : List DbRow) : List AggRow :=
  List.insertionSort (fun a b => b.avg_points ≤ a.avg_points)
    ((((t.filter (fun r => r.won = 0)).map (fun r => r.team_name)).dedup).map
      (fun team => aggOf team (teamPoints (t.filter (fun r => r.won = 0)) team)))

lemma foldl_min_le : ∀ (tl : List ℚ) (h x : ℚ), x ∈ h :: tl → tl.foldl min h ≤ x := by
  intro tl
  induction tl with
  | nil =>
    intro h x hx
    have hxh : x = h := by simpa using hx
    rw [hxh]
    exact le_refl h
  | cons y ys ih =>
    intro h x hx
    rw [List.foldl_cons]
    rcases List.mem_cons.mp hx with h1 | h1
    · calc ys.foldl min (min h y) ≤ min h y := ih (min h y) _ (List.mem_cons_self _ _)
        _ ≤ h := min_le_left h y
        _ = x := h1.symm
    · rcases List.mem_cons.mp h1 with h2 | h2
      · calc ys.foldl min (min h y) ≤ min h y := ih (min h y) _ (List.mem_cons_self _ _)
          _ ≤ y := min_le_right h y
          _ = x := h2.symm
      · exact ih (min h y) x (List.mem_cons_of_mem _ h2)

lemma le_foldl_max : ∀ (tl : List ℚ) (h x : ℚ), x ∈ h :: tl → x ≤ tl.foldl max h := by
  intro tl
  induction tl with
  | nil =>
    intro h x hx
    have hxh : x = h := by simpa using hx
    rw [hxh]
    exact le_refl h
  | cons y ys ih =>
    intro h x hx
    rw [List.foldl_cons]
    rcases List.mem_cons.mp hx with h1 | h1
    · calc x = h := h1
        _ ≤ max h y := le_max_left h y
        _ ≤ ys.foldl max (max h y) := ih (max h y) _ (List.mem_cons_self _ _)
    · rcases List.mem_cons.mp h1 with h2 | h2
      · calc x = y := h2
          _ ≤ max h y := le_max_right h y
          _ ≤ ys.foldl max (max h y) := ih (max h y) _ (List.mem_cons_self _ _)
      · exact ih (max h y) x (List.mem_cons_of_mem _ h2)

lemma agg_bounds (team : String) (h : ℚ) (tl : List ℚ) :
    (aggOf team (h :: tl)).min_points ≤ (aggOf team (h :: tl)).avg_points ∧
    (aggOf team (h :: tl)).avg_points ≤ (aggOf team (h :: tl)).max_points := by
  have hlen : (0 : ℚ) < ((h :: tl).length : ℚ) := by
    have hp : 0 < (h :: tl).length := by simp
    exact_mod_cast hp
  have hmin : ∀ x ∈ h :: tl, tl.foldl min h ≤ x := fun x hx => foldl_min_le tl h x hx
  have hmax : ∀ x ∈ h :: tl, x ≤ tl.foldl max h := fun x hx => le_foldl_max tl h x hx
  have hsum_lo : ((h :: tl).length : ℚ) * (tl.foldl min h) ≤ (h :: tl).sum := by
    have hh := List.card_nsmul_le_sum (h :: tl) (tl.foldl min h) hmin
    rw [nsmul_eq_mul] at hh
    exact hh
  have hsum_hi : (h :: tl).sum ≤ ((h :: tl).length : ℚ) * (tl.foldl max h) := by
    have hh := List.sum_le_card_nsmul (h :: tl) (tl.foldl max h) hmax
    rw [nsmul_eq_mul] at hh
    exact hh
  constructor
  · show tl.foldl min h ≤ (h :: tl).sum / ((h :: tl).length : ℚ)
    rw [le_div_iff hlen, mul_comm]
    exact hsum_lo
  · show (h :: tl).sum / ((h :: tl).length : ℚ) ≤ tl.foldl max h
    rw [div_le_iff hlen, mul_comm]
    exact hsum_hi

lemma aggOf_team (team : String) (ps : List ℚ) : (aggOf team ps).team_name = team := by
  cases ps <;> rfl

lemma stat_agg_mem (t : List DbRow) (flag : Nat) (row : AggRow)
    (hmem : row ∈ List.insertionSort (fun a b => b.avg_points ≤ a.avg_points)
      ((((t.filter (fun r => r.won = flag)).map (fun r => r.team_name)).dedup).map
        (fun team => aggOf team (teamPoints (t.filter (fun r => r.won = flag)) team)))) :
    row = aggOf row.team_name (teamPoints (t.filter (fun r => r.won = flag)) row.team_name) ∧
    row.min_points ≤ row.avg_points ∧ row.avg_points ≤ row.max_points := by
  rw [(List.perm_insertionSort _ _).mem_iff] at hmem
  rcases List.mem_map.mp hmem with ⟨team, hteam, hrow⟩
  have hname : row.team_name = team := by
    rw [← hrow]
    exact aggOf_team team _
  have hrow' : row = aggOf row.team_name
      (teamPoints (t.filter (fun r => r.won = flag)) row.team_name) := by
    rw [hname, ← hrow]
  refine ⟨hrow', ?_⟩
  have hne : teamPoints (t.filter (fun r => r.won = flag)) team ≠ [] := by
    rw [List.mem_dedup] at hteam
    rcases List.mem_map.mp hteam with ⟨r, hr, hrteam⟩
    apply List.ne_nil_of_mem (a := r.points)
    unfold teamPoints
    apply List.mem_map.mpr
    refine ⟨r, ?_, rfl⟩
    rw [List.mem_filter]
    refine ⟨hr, ?_⟩
    simp [hrteam]
  cases hps : teamPoints (t.filter (fun r => r.won = flag)) team with
  | nil => exact absurd hps hne
  | cons hh tl =>
    rw [hrow', hname, hps]
    exact agg_bounds team hh tl

/-- C6: every row of the average-points-in-win query aggregates exactly
its own team's `won = 1` rows, every row of the average-points-in-loss
query aggregates exactly its own team's `won = 0` rows, and in both the
reported average lies between the reported minimum and maximum. -/
theorem avg_win_loss_spec (t : List DbRow) :
    (∀ row ∈ stat_6_avg_points_in_win t,
      row = aggOf row.team_name (teamPoints (t.filter (fun r => r.won = 1)) row.team_name) ∧
      row.min_points ≤ row.avg_points ∧ row.avg_points ≤ row.max_points) ∧
    (∀ row ∈ stat_7_avg_points_in_loss t,
      row = aggOf row.team_name (teamPoints (t.filter (fun r => r.won = 0)) row.team_name) ∧
      row.min_points ≤ row.avg_points ∧ row.avg_points ≤ row.max_points) := by
  constructor
  · intro row hrow
    exact stat_agg_mem t 1 row hrow
  · intro row hrow
    exact stat_agg_mem t 0 row hrow

/-- Concrete table used to instantiate the aggregate theorem: two wins for
team A, one loss for team B. -/
def exTable6 : List DbRow :=
  [ { week := 1, roster_id := 1, team_name := "A", matchup_id := 1, points := 10,
      top_player_id := none, top_player_score := 0, players_json := [], won := 1,
      rank_in_matchup := 1 },
    { week := 2, roster_id := 1, team_name := "A", matchup_id := 1, points := 6,
      top_player_id := none, top_player_score := 0, players_json := [], won := 1,
      rank_in_matchup := 1 },
    { week := 1, roster_id := 2, team_name := "B", matchup_id := 1, points := 3,
      top_player_id := none, top_player_score := 0, players_json := [], won := 0,
      rank_in_matchup := 2 } ]

theorem avg_win_loss_spec_witness :
    aggOf "A" [10, 6] =
      aggOf (aggOf "A" [10, 6]).team_name
        (teamPoints (exTable6.filter (fun r => r.won = 1))
          (aggOf "A" [10, 6]).team_name) ∧
    (aggOf "A" [10, 6]).min_points ≤ (aggOf "A" [10, 6]).avg_points ∧
    (aggOf "A" [10, 6]).avg_points ≤ (aggOf "A" [10, 6]).max_points :=
  (avg_win_loss_spec exTable6).1 (aggOf "A" [10, 6])
    (by
      rw [show stat_6_avg_points_in_win exTable6 = [aggOf "A" [10, 6]] from rfl]
      exact List.mem_singleton.mpr rfl)

/-- Outcome of handing arbitrary operator-supplied query text to the
embedded engine (`self.db.execute(query).df()`): either a rendered result
table or a raised engine-level error. -/
inductive ExecResult where
  | ok (df : List (List String))
  | err (msg : String)
deriving DecidableEq

/-- Rendering of a result table on the console. -/
def printDf (df : List (List String)) : List String :=
  df.map (String.intercalate " ")

/-- `SleeperStats.interactive_query` (source lines 391-399): execute the
query text; on success print and return the result table, on any
engine-level failure catch it, print an error message and return `None`.
The second component is the console output. -/
def interactive_query (exec : String → ExecResult) (q : String) :
    Option (List (List String)) × List String :=
  match exec q with
  | .ok df => (some df, printDf df)
  | .err e => (none, ["Error executing query: " ++ e])

/-- Interactive loop of `main` (source lines 428-438) over a list of
input lines: strip the line, `quit` (case-insensitively) ends the loop,
blank input is skipped, anything else is handed to the gate; the list of
(query, returned value) pairs is collected. -/
def main_loop (exec : String → ExecResult) :
    List String → List (String × Option (List (List String)))
  | [] => []
  | line :: rest =>
    let q := line.trim
    if q.toLower = "quit" then []
    else if q = "" then main_loop exec rest
    else (q, (interactive_query exec q).1) :: main_loop exec rest

/-- C7: the gate always returns — a successful execution returns and
prints the result table, any engine-level failure is caught, prints an
error message and returns a null result — and the sequence of queries the
interactive loop attempts does not depend on the engine's outcomes, so an
error never terminates the loop. -/
theorem interactive_query_spec (exec exec' : String → ExecResult) (q : String)
    (inputs : List String) :
    ((∃ df, exec q = ExecResult.ok df ∧
        interactive_query exec q = (some df, printDf df)) ∨
      (∃ e, exec q = ExecResult.err e ∧
        interactive_query exec q = (none, ["Error executing query: " ++ e]))) ∧
    (main_loop exec inputs).map Prod.fst = (main_loop exec' inputs).map Prod.fst := by
  constructor
  · cases hx : exec q with
    | ok df =>
      left
      exact ⟨df, rfl, by unfold interactive_query; rw [hx]⟩
    | err e =>
      right
      exact ⟨e, rfl, by unfold interactive_query; rw [hx]⟩
  · induction inputs with
    | nil => rfl
    | cons line rest ih =>
      unfold main_loop
      by_cases hquit : line.trim.toLower = "quit"
      · rw [if_pos hquit, if_pos hquit]
      · rw [if_neg hquit, if_neg hquit]
        by_cases hblank : line.trim = ""
        · rw [if_pos hblank, if_pos hblank]
          exact ih
        · rw [if_neg hblank, if_neg hblank]
          rw [List.map_cons, List.map_cons, ih]

/-- Engine behaviour used to instantiate the gate theorem: every query
fails with a syntax error. -/
def exExec : String → ExecResult := fun q =>
  ExecResult.err ("Parser Error: syntax error at or near " ++ q)

theorem interactive_query_spec_witness :
    (main_loop exExec ["SELEKT * FROM matchups", "quit"]).map Prod.fst =
      (main_loop (fun _ => ExecResult.ok []) ["SELEKT * FROM matchups", "quit"]).map
        Prod.fst :=
  (interactive_query_spec exExec (fun _ => ExecResult.ok []) ""
    ["SELEKT * FROM matchups", "quit"]).2

/-- Week-partition window rank over table rows (`ROW_NUMBER() OVER
(PARTITION BY week ORDER BY points DESC)` in `stat_1`). -/
def weekRankDesc (rs : List (Nat × DbRow)) (p : Nat × DbRow) : Nat :=
  1 + (rs.filter (fun q => decide (q.2.week = p.2.week) &&
    (decide (p.2.points < q.2.points) ||
      (decide (q.2.points = p.2.points) && decide (q.1 < p.1))))).length

/-- Ascending variant used by `stat_3`. -/
def weekRankAsc (rs : List (Nat × DbRow)) (p : Nat × DbRow) : Nat :=
  1 + (rs.filter (fun q => decide (q.2.week = p.2.week) &&
    (decide (q.2.points < p.2.points) ||
      (decide (q.2.points = p.2.points) && decide (q.1 < p.1))))).length

/-- GROUP BY team over a filtered row set, producing COUNT and the
comma-separated week list (`STRING_AGG`), ordered by count descending. -/
def groupCountWeeks (rows : List DbRow) : List (String × Nat × String) :=
  List.insertionSort (fun a b => b.2.1 ≤ a.2.1)
    (((rows.map (fun r => r.team_name)).dedup).map (fun team =>
      let trs := rows.filter (fun r => r.team_name = team)
      (team, trs.length,
        String.intercalate ", " (trs.map (fun r => toString r.week)))))

instance : IsTotal (String × Nat × String) (fun a b => b.2.1 ≤ a.2.1) :=
  ⟨fun a b => Nat.le_total b.2.1 a.2.1⟩

instance : IsTrans (String × Nat × String) (fun a b => b.2.1 ≤ a.2.1) :=
  ⟨fun _ _ _ hab hbc => le_trans hbc hab⟩

/-- `stat_1_highest_scores_by_week` (source lines 185-208). -/
def stat_1_highest_scores_by_week (t : List DbRow) : List (String × Nat × String) :=
  groupCountWeeks ((t.enum.filter (fun p => weekRankDesc t.enum p = 1)).map Prod.snd)

/-- `stat_3_lowest_scores_by_week` (source lines 227-249). -/
def stat_3_lowest_scores_by_week (t : List DbRow) : List (String × Nat × String) :=
  groupCountWeeks ((t.enum.filter (fun p => weekRankAsc t.enum p = 1)).map Prod.snd)

/-- `MIN(points)` of one week's rows (`weekly_lowest` CTE of `stat_4`). -/
def weekLowest (t : List DbRow) (w : Nat) : ℚ :=
  match (t.filter (fun r => r.week = w)).map (fun r => r.points) with
  | [] => 0
  | h :: tl => tl.foldl min h

/-- `MAX(points)` of one week's rows (`weekly_highest` CTE of `stat_5`). -/
def weekHighest (t : List DbRow) (w : Nat) : ℚ :=
  match (t.filter (fun r => r.week = w)).map (fun r => r.points) with
  | [] => 0
  | h :: tl => tl.foldl max h

/-- GROUP BY team with COUNT, AVG and `STRING_AGG` of weeks, ordered by
count descending (shared shape of `stat_4` and `stat_5`). -/
def groupCountAvgWeeks (rows : List DbRow) : List (String × Nat × ℚ × String) :=
  List.insertionSort (fun a b => b.2.1 ≤ a.2.1)
    (((rows.map (fun r => r.team_name)).dedup).map (fun team =>
      let trs := rows.filter (fun r => r.team_name = team)
      (team, trs.length,
        (trs.map (fun r => r.points)).sum / (trs.length : ℚ),
        String.intercalate ", " (trs.map (fun r => toString r.week)))))

instance : IsTotal (String × Nat × ℚ × String) (fun a b => b.2.1 ≤ a.2.1) :=
  ⟨fun a b => Nat.le_total b.2.1 a.2.1⟩

instance : IsTrans (String × Nat × ℚ × String) (fun a b => b.2.1 ≤ a.2.1) :=
  ⟨fun _ _ _ hab hbc => le_trans hbc hab⟩

/-- `stat_4_most_wins_vs_lowest_score` (source lines 268-301). -/
def stat_4_most_wins_vs_lowest_score (t : List DbRow) : List (String × Nat × ℚ × String) :=
  groupCountAvgWeeks
    (t.filter (fun r => decide (r.points = weekLowest t r.week) && decide (r.won = 1)))

/-- `stat_5_most_losses_vs_highest_score` (source lines 303-336). -/
def stat_5_most_losses_vs_highest_score (t : List DbRow) : List (String × Nat × ℚ × String) :=
  groupCountAvgWeeks
    (t.filter (fun r => decide (r.points = weekHighest t r.week) && decide (r.won = 0)))

/-- Engine state: the single in-memory `matchups` table. -/
structure DbState where
  matchups : List DbRow
deriving DecidableEq

/-- Statement forms executable by the embedded engine.  Modelled from the
DuckDB engine semantics (an external dependency of the source): besides
the read-only SELECT statements of the fixed query catalog and a plain
`SELECT *`, the engine also executes data-modifying statements such as
UPDATE and DELETE when handed them as query text. -/
inductive SqlStmt where
  | stat1
  | stat2
  | stat3
  | stat3b
  | stat4
  | stat5
  | stat6
  | stat7
  | selectStar
  | updateAllPoints (v : ℚ)
  | deleteAll
deriving DecidableEq

/-- Console rendering of a table row. -/
def renderDbRow (r : DbRow) : List String :=
  [r.team_name, toString r.week, toString r.points, toString r.won,
    toString r.rank_in_matchup]

/-- Console rendering of a top/bottom-10 result row. -/
def renderScoreRow (r : ScoreRow) : List String :=
  [r.team_name, toString r.week, toString r.points, toString r.rank]

/-- Console rendering of an aggregate result row. -/
def renderAggRow (r : AggRow) : List String :=
  [r.team_name, toString r.games, toString r.avg_points, toString r.min_points,
    toString r.max_points]

/-- Console rendering of a count/weeks result row. -/
def renderCountRow (r : String × Nat × String) : List String :=
  [r.1, toString r.2.1, r.2.2]

/-- Console rendering of a count/avg/weeks result row. -/
def renderCountAvgRow (r : String × Nat × ℚ × String) : List String :=
  [r.1, toString r.2.1, toString r.2.2.1, r.2.2.2]

/-- Execution of one statement against the engine state: SELECT-class
statements return a rendered result and leave the table as is; UPDATE and
DELETE return no rows and change the table. -/
def dbExec : SqlStmt → DbState → DbState × List (List String)
  | .stat1, s => (s, (stat_1_highest_scores_by_week s.matchups).map renderCountRow)
  | .stat2, s => (s, (stat_2_top_10_scores_overall s.matchups).map renderScoreRow)
  | .stat3, s => (s, (stat_3_lowest_scores_by_week s.matchups).map renderCountRow)
  | .stat3b, s => (s, (stat_3b_top_10_lowest_scores_overall s.matchups).map renderScoreRow)
  | .stat4, s => (s, (stat_4_most_wins_vs_lowest_score s.matchups).map renderCountAvgRow)
  | .stat5, s => (s, (stat_5_most_losses_vs_highest_score s.matchups).map renderCountAvgRow)
  | .stat6, s => (s, (stat_6_avg_points_in_win s.matchups).map renderAggRow)
  | .stat7, s => (s, (stat_7_avg_points_in_loss s.matchups).map renderAggRow)
  | .selectStar, s => (s, s.matchups.map renderDbRow)
  | .updateAllPoints v, s =>
    ({ matchups := s.matchups.map (fun r => { r with points := v }) }, [])
  | .deleteAll, _ => ({ matchups := [] }, [])

/-- `SleeperStats.run_all_stats` (source lines 376-389): execute the eight
fixed queries in order, threading the engine state. -/
def run_all_stats (s : DbState) : DbState × List (List (List String)) :=
  let r1 := dbExec .stat1 s
  let r2 := dbExec .stat2 r1.1
  let r3 := dbExec .stat3 r2.1
  let r3b := dbExec .stat3b r3.1
  let r4 := dbExec .stat4 r3b.1
  let r5 := dbExec .stat5 r4.1
  let r6 := dbExec .stat6 r5.1
  let r7 := dbExec .stat7 r6.1
  (r7.1, [r1.2, r2.2, r3.2, r3b.2, r4.2, r5.2, r6.2, r7.2])

/-- Ad-hoc query gate in state-passing form: `interactive_query` forwards
any statement to the engine without restricting it to reads. -/
def interactive_query_db (s : DbState) (q : SqlStmt) : DbState × List (List String) :=
  dbExec q s

/-- Whether a statement is a read-only SELECT. -/
def isSelect : SqlStmt → Bool
  | .updateAllPoints _ => false
  | .deleteAll => false
  | _ => true

/-- Engine state used for the immutability theorems. -/
def exState : DbState := { matchups := exTable6 }

/-- C9 counterexample: an ad-hoc UPDATE statement, which the gate accepts
and forwards, changes the table's contents — the table is not immutable
under every ad-hoc query. -/
theorem adhoc_update_mutates :
    (interactive_query_db exState (SqlStmt.updateAllPoints 0)).1 ≠ exState := by
  decide

/-- C9 amended: after construction the fixed query library performs only
reads — `run_all_stats` leaves the table unchanged — and every
SELECT-class ad-hoc statement leaves it unchanged; only data-modifying
ad-hoc statements, which the gate does not reject, can change it. -/
theorem table_reads_preserve_state (s : DbState) :
    (run_all_stats s).1 = s ∧
    (∀ q, isSelect q = true → (interactive_query_db s q).1 = s) := by
  constructor
  · rfl
  · intro q hq
    cases q with
    | updateAllPoints v => exact absurd hq (by simp [isSelect])
    | deleteAll => exact absurd hq (by simp [isSelect])
    | stat1 => rfl
    | stat2 => rfl
    | stat3 => rfl
    | stat3b => rfl
    | stat4 => rfl
    | stat5 => rfl
    | stat6 => rfl
    | stat7 => rfl
    | selectStar => rfl

theorem table_reads_preserve_state_witness :
    (interactive_query_db exState SqlStmt.selectStar).1 = exState :=
  (table_reads_preserve_state exState).2 SqlStmt.selectStar rfl
